import Mathlib

/-!
Verification development for the PicoData scripts (pico-json.py, pico-raw.py).

The device protocol works on hex-encoded buffers: every byte of a wire
message is rendered as two lowercase hex characters followed by a space.
Python strings are modelled as `List Char`; Python slicing `s[a:b]` is
`(s.drop a).take (b - a)`; `int(s, 16)` on a string of plain hex digits is
`hexNat?` (returning `none` where Python raises `ValueError`); fallible
Python code (exceptions, and the one potentially non-terminating scan loop)
is modelled with `Option`, `none` standing for "no value is produced"
(an uncaught exception or divergence).
-/

/-- Python slice `s[a:b]` for `a ≤ b` (total, clips at the ends like Python). -/
def pySlice (s : List Char) (a b : Nat) : List Char :=
  (s.drop a).take (b - a)

/-- Value of one hex digit character, `none` for a non-hex character. -/
def hexDigit? (c : Char) : Option Nat :=
  if '0' ≤ c ∧ c ≤ '9' then some (c.toNat - '0'.toNat)
  else if 'a' ≤ c ∧ c ≤ 'f' then some (c.toNat - 'a'.toNat + 10)
  else if 'A' ≤ c ∧ c ≤ 'F' then some (c.toNat - 'A'.toNat + 10)
  else none

/-- Models Python `int(s, 16)` on a string of plain hex digits: `none` on the
empty string or on a non-hex-digit character (Python raises `ValueError`).
(Python additionally tolerates signs/underscores/whitespace; the buffers fed
to `int` by this program are space-stripped hex, where the two agree.) -/
def hexNat? (s : List Char) : Option Nat :=
  if s.isEmpty then none
  else s.foldlM (fun acc c => (hexDigit? c).map (fun d => 16 * acc + d)) 0

/-- Models Python `.replace(' ', '')`. -/
def stripSpaces (s : List Char) : List Char :=
  s.filter (fun c => c ≠ ' ')

/-- The decoded content of one TLV field, as the Python code represents it:
field types 1 and 3 yield a two-element integer list `[a, b]`; field type 3
yields the empty string for the "no data" sentinel; field type 4 yields a
decoded text string. -/
inductive FieldData where
  | pair (a b : Nat)
  | text (s : List Char)
deriving DecidableEq

/-- Python indexing `v[1]` on a field value: `[a, b][1] = b`.  Indexing into
a text value would yield a single character in Python, never used as a
sensor id or type code; it is modelled as failure. -/
def FieldData.elem1 : FieldData → Option Nat
  | .pair _ b => some b
  | .text _ => none

/-- Python indexing `v[0]` on a field value: `[a, b][0] = a`. -/
def FieldData.elem0 : FieldData → Option Nat
  | .pair a _ => some a
  | .text _ => none

/-- The type-3 "no data" sentinel pattern compared against the payload. -/
def sentinelStr : String := "7f ff ff ff"

/-- The sentinel as a character list. -/
def sentinel : List Char := sentinelStr.toList

/-- One step target of the text scanner: models Python
`chr(int(hexStr[i:i+2], 16))` pair decoding inside `HexToByte`. -/
def hexPairs : List Char → Option (List Char)
  | [] => some []
  | [c] => (hexNat? [c]).map (fun n => [Char.ofNat n])
  | c1 :: c2 :: rest => do
    let n ← hexNat? [c1, c2]
    let r ← hexPairs rest
    pure (Char.ofNat n :: r)

/-- Models Python `HexToByte`: strip all spaces, then decode consecutive
2-character hex groups to characters. -/
def hexToByte (s : List Char) : Option (List Char) :=
  hexPairs (stripSpaces s)

/-- The text-field scan loop of `getNextField` (field type 4), with explicit
fuel.  Each Python iteration appends `response[0:2]` to the word and drops 3
characters; the loop stops when the next 2-character group is the `00`
terminator.  On a buffer with no aligned `00` group the Python loop never
terminates (the empty string is its fixed point); that divergence is the
`none` returned when the fuel runs out, and the fuel `resp.length` used by
`scanText` is enough for every terminating run (each step shortens a
non-empty buffer). -/
def scanTextFuel : Nat → List Char → Option (List Char × List Char)
  | fuel, resp =>
    if resp.take 2 = ['0', '0'] then some ([], resp)
    else
      match fuel with
      | 0 => none
      | fuel' + 1 =>
        (scanTextFuel fuel' (resp.drop 3)).map (fun p => (resp.take 2 ++ p.1, p.2))

/-- The text-field scan loop of `getNextField`, at its sufficient fuel. -/
def scanText (resp : List Char) : Option (List Char × List Char) :=
  scanTextFuel resp.length resp

/-- Models `getNextField` (identical in pico-json.py and pico-raw.py):
reads the field number from characters 0..1 and the field type from
characters 3..4, dispatches on field types 1, 3 and 4, and yields no value
(Python returns `None`) for any other type code.  `none` also models the
`ValueError` Python raises when a required hex group does not parse. -/
def getNextField (response : List Char) : Option (Nat × FieldData × List Char) :=
  match hexNat? (pySlice response 0 2), hexNat? (pySlice response 3 5) with
  | some field_nr, some field_type =>
    if field_type = 1 then
      let data := pySlice response 6 17
      let rest := response.drop 21
      match hexNat? (stripSpaces (pySlice data 0 5)), hexNat? (stripSpaces (pySlice data 6 11)) with
      | some a, some b => some (field_nr, .pair a b, rest)
      | _, _ => none
    else if field_type = 3 then
      let data := pySlice response 21 32
      let rest := response.drop 36
      if pySlice data 0 11 = sentinel then
        some (field_nr, .text [], rest)
      else
        match hexNat? (stripSpaces (pySlice data 0 5)), hexNat? (stripSpaces (pySlice data 6 11)) with
        | some a, some b => some (field_nr, .pair a b, rest)
        | _, _ => none
    else if field_type = 4 then
      match scanText (response.drop 21) with
      | none => none
      | some (w, r) =>
        match hexToByte w with
        | none => none
        | some word => some (field_nr, .text word, r.drop 6)
    else none
  | _, _ => none

/-- A decoded frame: the field-number-keyed mapping Python builds as a dict.
Only the key-to-value view of the dict matters to this program. -/
def Frame : Type := Nat → Option FieldData

/-- Python dict assignment: a later value for the same field number
overwrites the earlier one. -/
def insertFrame (d : Frame) (n : Nat) (v : FieldData) : Frame :=
  fun k => if k = n then some v else d k

/-- The frame with no fields (Python `{}`). -/
def emptyFrame : Frame := fun _ => none

/-- The field-extraction loop of `parseResponse`, with explicit fuel:
while more than 6 characters remain, decode one field and store it in the
dict.  When `getNextField` yields no value, Python unpacks `None` into a
tuple and raises an uncaught `TypeError`: the `none` result.  Every
successful `getNextField` strictly shortens the buffer, so fuel
`response.length` (used by `parseResponse`) can only run out on a run that
Python would not complete either. -/
def parseLoopFuel : Nat → Frame → List Char → Option Frame
  | 0, dict, response => if 6 < response.length then none else some dict
  | fuel + 1, dict, response =>
    if 6 < response.length then
      match getNextField response with
      | none => none
      | some (n, v, rest) => parseLoopFuel fuel (insertFrame dict n v) rest
    else some dict

/-- Models `parseResponse` (identical in both scripts): strip the first 42
characters as header, then extract fields while more than 6 characters
remain. -/
def parseResponse (response : List Char) : Option Frame :=
  parseLoopFuel (response.drop 42).length emptyFrame (response.drop 42)

/-- The sequence of `(field number, value)` pairs `parseResponse` decodes,
in decoding order, with the same loop guard and fuel as `parseLoopFuel`. -/
def fieldSeqFuel : Nat → List Char → Option (List (Nat × FieldData))
  | 0, response => if 6 < response.length then none else some []
  | fuel + 1, response =>
    if 6 < response.length then
      match getNextField response with
      | none => none
      | some (n, v, rest) => (fieldSeqFuel fuel rest).map (fun l => (n, v) :: l)
    else some []

/-- The decoded field sequence of a (header-stripped) buffer. -/
def fieldSeq (response : List Char) : Option (List (Nat × FieldData)) :=
  fieldSeqFuel response.length response

/-- Models Python `str.split()` for space-separated strings: split on runs
of spaces, dropping empty pieces. -/
def words (s : List Char) : List (List Char) :=
  (s.splitOn ' ').filter (fun w => w ≠ [])

/-- All byte tokens of a command message, each parsed as hex
(`[int(x, 16) for x in message.split()]` over the full token list). -/
def msgBytes (message : List Char) : Option (List Nat) :=
  (words message).mapM hexNat?

/-- The byte list `add_crc` hands to the external checksum function
`brainsmoke.calc_rev_crc16`: the command tokens with the FIRST token
dropped (`fields[1:]`), each parsed as hex, and then the last byte dropped
(`message_int[0:-1]`). -/
def crcInput (message : List Char) : Option (List Nat) :=
  (((words message).drop 1).mapM hexNat?).map List.dropLast

/-- Models Python `hexdump`: format a 16-bit checksum as two
space-separated hex bytes (zero-padding 2- or 3-digit hex values). -/
def hexdump (b : Nat) : List Char :=
  let hex := Nat.toDigits 16 b
  let hex := if hex.length = 2 then '0' :: '0' :: hex
             else if hex.length = 3 then '0' :: hex else hex
  pySlice hex 0 2 ++ [' '] ++ pySlice hex 2 4

/-- Models `add_crc`, parameterized by the external
`brainsmoke.calc_rev_crc16` (the module is not part of this repository):
append a space and the formatted checksum of `crcInput` to the message. -/
def add_crc (crc : List Nat → Nat) (message : List Char) : Option (List Char) :=
  (crcInput message).map (fun bytes => message ++ [' '] ++ hexdump (crc bytes))

/-- Round a rational to two decimal places, the exact-arithmetic reading of
Python float formatting with two decimals.  Every value this program rounds
has at most two decimal places already, so the rounding mode is immaterial. -/
def round2 (x : ℚ) : ℚ :=
  ((round (100 * x) : ℤ) : ℚ) / 100

/-- The shared 16-bit sign fold of `toTemperature` in both scripts:
values above 32768 are shifted down by 65536. -/
def signFold16 (temp : ℕ) : ℤ :=
  if 32768 < temp then (temp : ℤ) - 65536 else (temp : ℤ)

/-- Models `toTemperature` of pico-json.py: sign-fold, divide by 10,
format to two decimals (no Kelvin offset). -/
def toTemperature_json (temp : ℕ) : ℚ :=
  round2 ((signFold16 temp : ℚ) / 10)

/-- Models `toTemperature` of pico-raw.py: sign-fold, divide by 10, add the
273.15 Kelvin offset, round to two decimals, format to two decimals. -/
def toTemperature_raw (temp : ℕ) : ℚ :=
  round2 (round2 ((signFold16 temp : ℚ) / 10 + 273.15))

/-- The battery state-of-charge formula of `readBatt` in pico-json.py:
`element[elementId][0] / 16000.0`. -/
def stateOfCharge_json (v : ℕ) : ℚ := (v : ℚ) / 16000

/-- The battery state-of-charge formula of `readBatt` in pico-raw.py:
`element[elementId][0] / 160.0`. -/
def stateOfCharge_raw (v : ℕ) : ℚ := (v : ℚ) / 160

/-- Python division, which raises `ZeroDivisionError` on a zero divisor. -/
def pydiv (x y : ℚ) : Option ℚ :=
  if y = 0 then none else some (x / y)

/-- The tank reading `readTank` stores into the snapshot. -/
structure TankReading where
  currentLevel : ℚ
  remainingCapacity : ℚ
  percentage : ℚ
deriving DecidableEq

/-- Models `readTank` (identical in both scripts) on one decoded element
pair `[a, b]` and the descriptor capacity looked up with
`sensorList[sensorId].get('capacity', 0)`: `currentLevel = a / 1000`,
`remainingCapacity = b / 10`, and
`percentage = (remainingCapacity / capacity) * 100 if capacity else 0`
(the division happens only under the truthiness guard). -/
def readTank (a b : ℕ) (capOpt : Option ℚ) : Option TankReading :=
  let currentLevel : ℚ := (a : ℚ) / 1000
  let capacity : ℚ := capOpt.getD 0
  let remainingCapacity : ℚ := (b : ℚ) / 10
  let percOpt : Option ℚ :=
    if capacity ≠ 0 then (pydiv remainingCapacity capacity).map (fun q => q * 100)
    else some 0
  percOpt.map (fun percentage =>
    { currentLevel := currentLevel
      remainingCapacity := remainingCapacity
      percentage := percentage })

/-- Models `BinToHex`: each datagram byte becomes two lowercase hex digits
followed by a space (Python `format(x, '02x')` on a byte value). -/
def binToHex (message : List (Fin 256)) : List Char :=
  message.flatMap (fun b => [Nat.digitChar (b.val / 16), Nat.digitChar (b.val % 16), ' '])

/-- Outcome of the per-datagram processing in the pico-json.py main loop:
the datagram is silently discarded by the validity gate, or it is decoded
into a frame, or decoding raises an uncaught exception. -/
inductive DatagramResult where
  | discarded
  | crashed
  | snapshot (frame : Frame)

/-- Models the validity gate and decode step of the pico-json.py main loop:
a datagram is decoded only when its byte length is strictly between 100 and
1000 and character 18 of its hex dump (the high hex digit of byte 6) is
the marker character; otherwise the loop falls through and the datagram is
silently discarded. -/
def processDatagram (message : List (Fin 256)) : DatagramResult :=
  if 100 < message.length ∧ message.length < 1000 then
    let response := binToHex message
    if response.get? 18 = some 'b' then
      match parseResponse response with
      | none => .crashed
      | some frame => .snapshot frame
    else .discarded
  else .discarded

/-- The sensor kind stored under the descriptor key 'type': the raw
numeric code for unrecognized codes, a name otherwise. -/
inductive SensorType where
  | null
  | volt
  | current
  | thermometer
  | barometer
  | ohm
  | tank
  | battery
  | inclinometer
  | unknown (code : Nat)
deriving DecidableEq

/-- The position-independent part of one sensor descriptor built by
`createSensorList` in pico-json.py (every key the code may set except
'pos'). -/
structure Desc0 where
  type : SensorType
  name : Option FieldData := none
  capacity : Option ℚ := none
  fluidType : Option (List Char) := none
  fluid : Option (List Char) := none
  capacityNominal : Option Nat := none
deriving DecidableEq

/-- The reference-channel name that widens a volt sensor to 6 elements. -/
def picoInternalStr : String := "PICO INTERNAL"

/-- Fluid key names indexed by the fluid code (field 6). -/
def fluidNames : List String :=
  [ "Unknown", "freshWater", "fuel", "wasteWater"]

/-- Fluid display names indexed by the fluid code (field 6). -/
def fluidTypeNames : List String :=
  [ "Unknown", "fresh water", "diesel", "blackwater"]

/-- Models the body of the `createSensorList` loop of pico-json.py for one
raw config record: read the sensor id from field 0 and the type code from
field 1 (each the second entry of a pair), then build the descriptor and
element size for that type code.  `none` models the exceptions Python would
raise on a missing field (`KeyError`), a non-pair id/type/calibration value,
or an out-of-range fluid code (`IndexError`).  The result is
`(sensor id, descriptor without position, element size)`. -/
def sensorEntry (r : Frame) : Option (Nat × Desc0 × Nat) := do
  let id ← (← r 0).elem1
  let tcode ← (← r 1).elem1
  match tcode with
  | 0 => some (id, { type := .null }, 0)
  | 1 => do
    let name ← r 3
    some (id, { type := .volt, name := some name },
      if name = FieldData.text picoInternalStr.toList then 6 else 1)
  | 2 => do
    let name ← r 3
    some (id, { type := .current, name := some name }, 2)
  | 3 => do
    let name ← r 3
    some (id, { type := .thermometer, name := some name }, 1)
  | 5 => do
    let name ← r 3
    some (id, { type := .barometer, name := some name }, 2)
  | 6 => do
    let name ← r 3
    some (id, { type := .ohm, name := some name }, 1)
  | 8 => do
    let name ← r 3
    let cap ← (← r 7).elem1
    let fcode ← (← r 6).elem1
    let ftype ← fluidTypeNames.get? fcode
    let fl ← fluidNames.get? fcode
    some (id, { type := .tank, name := some name, capacity := some ((cap : ℚ) / 10),
                fluidType := some ftype.toList, fluid := some fl.toList }, 1)
  | 9 => do
    let name ← r 3
    let cap ← (← r 5).elem1
    some (id, { type := .battery, name := some name,
                capacityNominal := some (cap * 36 * 12) }, 5)
  | 13 => some (id, { type := .inclinometer }, 1)
  | c => some (id, { type := .unknown c }, 1)

/-- The sensor registry: sensor id to (descriptor, byte offset 'pos'). -/
def SensorList : Type := Nat → Option (Desc0 × Nat)

/-- The empty registry. -/
def emptySL : SensorList := fun _ => none

/-- Python dict assignment on the registry: `sensorList[id] = {...}`
overwrites any earlier descriptor stored under the same id. -/
def insertSensor (sl : SensorList) (id : Nat) (d : Desc0 × Nat) : SensorList :=
  fun k => if k = id then some d else sl k

/-- One iteration of the `createSensorList` loop: store the record's
descriptor under its id at the current `elementPos`, then advance
`elementPos` by the record's element size. -/
def buildStep (acc : SensorList × Nat) (r : Frame) : Option (SensorList × Nat) :=
  (sensorEntry r).map (fun e => (insertSensor acc.1 e.1 (e.2.1, acc.2), acc.2 + e.2.2))

/-- Models `createSensorList` of pico-json.py over the config records in
enumeration order (Python iterates the config dict keys in insertion order
0, 1, 2, ...). -/
def createSensorList (config : List Frame) : Option SensorList :=
  (List.foldlM buildStep (emptySL, 0) config).map (fun p => p.1)

/-- The element size of each config record, in enumeration order. -/
def sizes (config : List Frame) : Option (List Nat) :=
  config.mapM (fun r => (sensorEntry r).map (fun e => e.2.2))

/-- `round2` is exact on rationals with at most two decimal places. -/
theorem round2_exact (x : ℚ) (n : ℤ) (h : (n : ℚ) = 100 * x) : round2 x = x := by
  unfold round2
  rw [← h, round_intCast, h]
  field_simp

/-- Claim C5: for every raw value, the pico-raw battery state-of-charge
(v / 160) is exactly 100 times the pico-json state-of-charge (v / 16000),
and for every raw temperature the pico-raw decoded temperature equals the
pico-json decoded temperature plus the 273.15 Kelvin offset (the two-decimal
roundings are exact on these values). -/
theorem calibration_variants_relation (v t : ℕ) :
    stateOfCharge_raw v = 100 * stateOfCharge_json v ∧
    toTemperature_raw t = toTemperature_json t + 273.15 := by
  constructor
  · unfold stateOfCharge_raw stateOfCharge_json
    ring
  · unfold toTemperature_raw toTemperature_json
    have h1 : round2 ((signFold16 t : ℚ) / 10) = (signFold16 t : ℚ) / 10 :=
      round2_exact _ (10 * signFold16 t) (by push_cast; ring)
    have h2 : round2 ((signFold16 t : ℚ) / 10 + 273.15) = (signFold16 t : ℚ) / 10 + 273.15 :=
      round2_exact _ (10 * signFold16 t + 27315) (by push_cast; norm_num; ring)
    rw [h1, h2, h2]

/-- Claim C9: for every tank element pair (a, b) and every configured
capacity, `readTank` produces a reading (never a division error) with
currentLevel = a/1000, remainingCapacity = b/10, and percentage equal to
remainingCapacity / capacity * 100, except that a missing or zero capacity
yields percentage 0. -/
theorem readTank_safe (a b : ℕ) (capOpt : Option ℚ) :
    ∃ tr, readTank a b capOpt = some tr ∧
      tr.currentLevel = (a : ℚ) / 1000 ∧
      tr.remainingCapacity = (b : ℚ) / 10 ∧
      (capOpt.getD 0 = 0 → tr.percentage = 0) ∧
      (capOpt.getD 0 ≠ 0 → tr.percentage = (b : ℚ) / 10 / capOpt.getD 0 * 100) := by
  unfold readTank pydiv
  by_cases h : capOpt.getD 0 = 0
  · refine ⟨⟨(a : ℚ) / 1000, (b : ℚ) / 10, 0⟩, ?_, rfl, rfl, fun _ => rfl,
      fun hc => absurd h hc⟩
    simp [h]
  · refine ⟨⟨(a : ℚ) / 1000, (b : ℚ) / 10, (b : ℚ) / 10 / capOpt.getD 0 * 100⟩, ?_, rfl, rfl,
      fun hc => absurd hc h, fun _ => rfl⟩
    simp [h]

/-- A concrete three-byte command message used to exhibit which bytes
`add_crc` feeds to the checksum. -/
def c2msgStr : String := "01 02 03"

/-- Claim C2 counterexample: for the message with bytes 01 02 03, the list
handed to the checksum function is [02] — not [01, 02], the list of all
bytes except the last — so the first byte of the message is excluded from
the CRC input. -/
theorem crc_input_counterexample :
    (msgBytes c2msgStr.toList).map List.dropLast = some [1, 2] ∧
    crcInput c2msgStr.toList = some [2] ∧
    ¬ crcInput c2msgStr.toList = (msgBytes c2msgStr.toList).map List.dropLast := by
  refine ⟨by decide, by decide, ?_⟩
  intro h
  rw [show crcInput c2msgStr.toList = some [2] from by decide,
    show (msgBytes c2msgStr.toList).map List.dropLast = some [1, 2] from by decide] at h
  simp at h

/-- Claim C2 (amended): whenever every token of the command message parses
as a hex byte, the CRC input `add_crc` builds is the message's byte list
with both its first byte and its last (placeholder) byte removed. -/
theorem crc_input_drops_first_and_last (message : List Char) (l : List Nat)
    (h : msgBytes message = some l) :
    crcInput message = some ((l.drop 1).dropLast) := by
  unfold msgBytes at h
  unfold crcInput
  cases hw : words message with
  | nil =>
    rw [hw] at h
    rw [List.mapM_nil] at h
    cases h
    rfl
  | cons w ws =>
    rw [hw] at h
    rw [List.mapM_cons] at h
    cases hx : hexNat? w with
    | none => rw [hx] at h; simp at h
    | some x =>
      rw [hx] at h
      cases hws : ws.mapM hexNat? with
      | none => rw [hws] at h; simp at h
      | some xs =>
        rw [hws] at h
        simp only [Option.bind_some, Option.pure_def, Option.bind_eq_bind, Option.some_bind] at h
        cases h
        show Option.map List.dropLast (List.mapM hexNat? ws) = some xs.dropLast
        rw [hws]
        rfl

/-- Witness for `crc_input_drops_first_and_last` at the concrete message
"01 02 03". -/
theorem crc_input_drops_first_and_last_witness :
    crcInput c2msgStr.toList = some ((([1, 2, 3] : List Nat).drop 1).dropLast) :=
  crc_input_drops_first_and_last c2msgStr.toList [1, 2, 3] (by decide)

/-- The 11-character type-3 payload is unchanged by the code's `data[0:11]`
slice. -/
theorem pySlice_data_take (resp : List Char) :
    pySlice (pySlice resp 21 32) 0 11 = pySlice resp 21 32 := by
  show ((pySlice resp 21 32).drop 0).take (11 - 0) = _
  rw [List.drop_zero]
  apply List.take_of_length_le
  unfold pySlice
  simp [List.length_take]

/-- Claim C3: on a buffer whose field type code (characters 3..4) is 3,
`getNextField` returns the empty (absent) value exactly when the
11-character payload at offset 21 equals the "no data" sentinel
"7f ff ff ff"; any other payload is parsed as two integers (the two
5-character hex groups of the payload, spaces stripped); and in both cases
the remaining buffer is the input with its first 36 characters consumed. -/
theorem type3_absent_iff_sentinel (resp : List Char) (nr : Nat)
    (h0 : hexNat? (pySlice resp 0 2) = some nr)
    (h3 : hexNat? (pySlice resp 3 5) = some 3) :
    (getNextField resp = some (nr, .text [], resp.drop 36) ↔ pySlice resp 21 32 = sentinel) ∧
    (∀ a b, pySlice resp 21 32 ≠ sentinel →
      hexNat? (stripSpaces (pySlice (pySlice resp 21 32) 0 5)) = some a →
      hexNat? (stripSpaces (pySlice (pySlice resp 21 32) 6 11)) = some b →
      getNextField resp = some (nr, .pair a b, resp.drop 36)) := by
  have htake := pySlice_data_take resp
  by_cases hs : pySlice resp 21 32 = sentinel
  · refine ⟨⟨fun _ => hs, fun _ => ?_⟩, fun a b hne => absurd hs hne⟩
    unfold getNextField
    rw [h0, h3]
    simp [hs, show pySlice sentinel 0 11 = sentinel from by decide]
  · constructor
    · refine ⟨fun hres => ?_, fun hs2 => absurd hs2 hs⟩
      exfalso
      cases hxa : hexNat? (stripSpaces (pySlice (pySlice resp 21 32) 0 5)) with
      | none =>
        unfold getNextField at hres
        rw [h0, h3] at hres
        simp [htake, hs, hxa] at hres
      | some a =>
        cases hxb : hexNat? (stripSpaces (pySlice (pySlice resp 21 32) 6 11)) with
        | none =>
          unfold getNextField at hres
          rw [h0, h3] at hres
          simp [htake, hs, hxa, hxb] at hres
        | some b =>
          unfold getNextField at hres
          rw [h0, h3] at hres
          simp [htake, hs, hxa, hxb] at hres
    · intro a b hne ha hb
      unfold getNextField
      rw [h0, h3]
      simp [htake, hs, ha, hb]

/-- A concrete type-3 buffer carrying the sentinel payload. -/
def c3sentinelStr : String := "05 03 00 00 00 00 00 7f ff ff ff 00"

/-- Witness for `type3_absent_iff_sentinel`: the concrete sentinel buffer
decodes to field 5 with the absent value and 36 characters consumed. -/
theorem type3_absent_iff_sentinel_witness :
    getNextField c3sentinelStr.toList = some (5, .text [], c3sentinelStr.toList.drop 36) := by
  have h := type3_absent_iff_sentinel c3sentinelStr.toList 5 (by decide) (by decide)
  exact h.1.mpr (by decide)

/-- The word accumulated by the text scan over the first `k` 2-character
groups of the scan region (groups start every 3 characters). -/
def textWord (s : List Char) (k : Nat) : List Char :=
  (List.range k).flatMap (fun j => (s.drop (3 * j)).take 2)

/-- Unfolding `textWord` one group at a time. -/
theorem textWord_succ (s : List Char) (k : Nat) :
    textWord s (k + 1) = s.take 2 ++ textWord (s.drop 3) k := by
  unfold textWord
  rw [List.range_succ_eq_map]
  simp only [List.flatMap, List.map_cons, List.flatten_cons, List.map_map, Nat.mul_zero,
    List.drop_zero, List.drop_drop]
  congr 2
  apply List.map_congr_left
  intro j _
  simp only [Function.comp, Nat.succ_eq_add_one]
  congr 2
  omega

/-- The text scan terminates exactly at the first aligned `00` group: if
every group before index `k` differs from `00` and group `k` equals `00`,
the scan returns the concatenation of the first `k` groups together with
the buffer suffix starting at the terminator (given fuel at least `k`). -/
theorem scanTextFuel_spec (k : Nat) :
    ∀ (s : List Char) (fuel : Nat), k ≤ fuel →
    (∀ j, j < k → (s.drop (3 * j)).take 2 ≠ ['0', '0']) →
    (s.drop (3 * k)).take 2 = ['0', '0'] →
    scanTextFuel fuel s = some (textWord s k, s.drop (3 * k)) := by
  induction k with
  | zero =>
    intro s fuel _ _ hk
    simp only [Nat.mul_zero, List.drop_zero] at hk ⊢
    unfold scanTextFuel
    rw [if_pos hk]
    simp [textWord]
  | succ k ih =>
    intro s fuel hfuel h1 hk
    have h0 : s.take 2 ≠ ['0', '0'] := by
      have := h1 0 (Nat.succ_pos k)
      simpa using this
    cases fuel with
    | zero => exact absurd hfuel (by omega)
    | succ f =>
      have h1s : ∀ j, j < k → ((s.drop 3).drop (3 * j)).take 2 ≠ ['0', '0'] := by
        intro j hj
        rw [List.drop_drop]
        have := h1 (j + 1) (by omega)
        rw [show 3 * (j + 1) = 3 + 3 * j by ring] at this
        exact this
      have hks : ((s.drop 3).drop (3 * k)).take 2 = ['0', '0'] := by
        rw [List.drop_drop]
        rw [show 3 * (k + 1) = 3 + 3 * k by ring] at hk
        exact hk
      have ihs := ih (s.drop 3) f (by omega) h1s hks
      unfold scanTextFuel
      rw [if_neg h0]
      show Option.map (fun p => (s.take 2 ++ p.1, p.2)) (scanTextFuel f (s.drop 3)) =
        some (textWord s (k + 1), s.drop (3 * (k + 1)))
      rw [ihs]
      rw [textWord_succ, List.drop_drop]
      rw [show (3 : ℕ) + 3 * k = 3 * (k + 1) from by ring]
      rfl

/-- Claim C4: on a buffer whose field type code is 4, if the scan region
(offset 21 onward) has its first aligned `00` group at index `k`, then
`getNextField` terminates and returns the hex-decoded concatenation of
exactly the `k` groups before the terminator, and the remaining buffer
starts right after the terminator's fixed 6-character trailing separator —
the scan never consumes anything beyond that point, whatever follows. -/
theorem type4_text_terminates (resp : List Char) (nr k : Nat) (w : List Char)
    (h0 : hexNat? (pySlice resp 0 2) = some nr)
    (h4 : hexNat? (pySlice resp 3 5) = some 4)
    (hbefore : ∀ j, j < k → ((resp.drop 21).drop (3 * j)).take 2 ≠ ['0', '0'])
    (hterm : ((resp.drop 21).drop (3 * k)).take 2 = ['0', '0'])
    (hword : hexToByte (textWord (resp.drop 21) k) = some w) :
    getNextField resp = some (nr, .text w, ((resp.drop 21).drop (3 * k)).drop 6) := by
  have hlen2 : 2 ≤ ((resp.drop 21).drop (3 * k)).length := by
    by_contra hlt
    push_neg at hlt
    have heq : ((resp.drop 21).drop (3 * k)).take 2 = (resp.drop 21).drop (3 * k) :=
      List.take_of_length_le (by omega)
    rw [heq] at hterm
    have h2 : ((resp.drop 21).drop (3 * k)).length = 2 := by rw [hterm]; rfl
    omega
  have hlen : k ≤ (resp.drop 21).length := by
    simp only [List.length_drop] at hlen2 ⊢
    omega
  have hscan : scanText (resp.drop 21) =
      some (textWord (resp.drop 21) k, (resp.drop 21).drop (3 * k)) :=
    scanTextFuel_spec k (resp.drop 21) (resp.drop 21).length hlen hbefore hterm
  unfold getNextField
  rw [h0, h4]
  simp [hscan, hword]

/-- A concrete type-4 buffer: text payload "41 42" terminated by "00". -/
def c4str : String := "02 04 00 00 00 00 00 41 42 00 00 00 00"

/-- Witness for `type4_text_terminates` at the concrete buffer: the text
field decodes to the two characters A B and stops at the terminator. -/
theorem type4_text_terminates_witness :
    getNextField c4str.toList =
      some (2, .text ('A' :: 'B' :: []), ((c4str.toList.drop 21).drop (3 * 2)).drop 6) := by
  refine type4_text_terminates c4str.toList 2 2 ('A' :: 'B' :: [])
    (by decide) (by decide) ?_ (by decide) (by decide)
  intro j hj
  have hj01 : j = 0 ∨ j = 1 := by omega
  rcases hj01 with h | h <;> subst h <;> decide

/-- The body of a frame (after the 42-character header): one valid type-1
field, then a field with unknown type code 2. -/
def c1bodyStr : String := "07 01 12 34 56 78 00 08 02 00 00"

/-- The buffer position where the unknown-type field starts. -/
def c1tailStr : String := "08 02 00 00"

/-- A full frame: a 42-character header followed by `c1bodyStr`. -/
def c1input : List Char := List.replicate 42 '0' ++ c1bodyStr.toList

/-- Claim C1 (behaviour at the failing input): the first field of the frame
body decodes fine, the next field has the unrecognized type code 2 so
`getNextField` yields no value — and `parseResponse` then produces no
frame at all: Python unpacks the `None` into a tuple, raising an uncaught
`TypeError` that kills the process, and the mapping holding the already
decoded field 7 is discarded rather than kept. -/
theorem unknown_field_type_crashes :
    getNextField c1bodyStr.toList = some (7, .pair 4660 22136, c1tailStr.toList) ∧
    getNextField c1tailStr.toList = none ∧
    parseResponse c1input = none := by
  refine ⟨by decide, by decide, ?_⟩
  rfl

/-- The frame built by the extraction loop is the decoded field sequence
folded into the dict by overwriting insertion. -/
theorem parseLoopFuel_eq_fieldSeqFuel (fuel : Nat) :
    ∀ (d : Frame) (s : List Char),
    parseLoopFuel fuel d s =
      (fieldSeqFuel fuel s).map (fun l => l.foldl (fun dd p => insertFrame dd p.1 p.2) d) := by
  induction fuel with
  | zero =>
    intro d s
    by_cases h : 6 < s.length <;> simp [parseLoopFuel, fieldSeqFuel, h]
  | succ fuel ih =>
    intro d s
    by_cases h : 6 < s.length
    · simp only [parseLoopFuel, fieldSeqFuel, if_pos h]
      cases hg : getNextField s with
      | none => rfl
      | some t =>
        obtain ⟨n, v, rest⟩ := t
        show parseLoopFuel fuel (insertFrame d n v) rest =
          Option.map (fun l => List.foldl (fun dd p => insertFrame dd p.1 p.2) d l)
            (Option.map (fun l => (n, v) :: l) (fieldSeqFuel fuel rest))
        rw [ih]
        cases hf : fieldSeqFuel fuel rest with
        | none => rfl
        | some l => rfl
    · simp [parseLoopFuel, fieldSeqFuel, h]

/-- Looking up a key in the dict built by overwriting insertion yields the
value of the last inserted pair with that key (falling back to the initial
dict). -/
theorem foldl_insert_lookup (l : List (Nat × FieldData)) :
    ∀ (d : Frame) (n : Nat),
    (l.foldl (fun dd p => insertFrame dd p.1 p.2) d) n =
      Option.or ((l.reverse.find? (fun p => p.1 == n)).map (fun p => p.2)) (d n) := by
  induction l with
  | nil => intro d n; simp
  | cons p t ih =>
    intro d n
    simp only [List.foldl_cons, List.reverse_cons]
    rw [ih, List.find?_append]
    have hstep : (insertFrame d p.1 p.2) n =
        Option.or (([p].find? (fun q => q.1 == n)).map (fun q => q.2)) (d n) := by
      unfold insertFrame
      by_cases h : n = p.1
      · subst h
        simp [List.find?]
      · have h2 : (p.1 == n) = false := by
          simp [Ne.symm h]
        simp [List.find?, h, h2]
    rw [hstep]
    cases hf : t.reverse.find? (fun q => q.1 == n) <;> simp [Option.or]

/-- Claim C7 (amended): `parseResponse` strips exactly the first 42
characters, then decodes fields while more than 6 characters remain
(stopping as soon as 6 or fewer remain), and the resulting mapping sends
each field number to the value of the last decoded field carrying it. -/
theorem parseResponse_structure (r : List Char) :
    parseResponse r =
      (fieldSeq (r.drop 42)).map (fun l => fun n =>
        (l.reverse.find? (fun p => p.1 == n)).map (fun p => p.2)) := by
  unfold parseResponse fieldSeq
  rw [parseLoopFuel_eq_fieldSeqFuel]
  cases hf : fieldSeqFuel (r.drop 42).length (r.drop 42) with
  | none => rfl
  | some l =>
    show some (List.foldl (fun dd p => insertFrame dd p.1 p.2) emptyFrame l) =
      some (fun n => (l.reverse.find? (fun p => p.1 == n)).map (fun p => p.2))
    congr 1
    funext n
    rw [foldl_insert_lookup]
    show Option.or ((l.reverse.find? (fun p => p.1 == n)).map (fun p => p.2)) none = _
    cases hx : (l.reverse.find? (fun p => p.1 == n)).map (fun p => p.2) with
    | none => rfl
    | some a => rfl

/-- Modelled from the spec: the Frame Decoder loop exactly as the
specification words it — "repeatedly invokes the Field Codec until fewer
than 6 characters remain", i.e. the loop body runs while at least 6
characters remain. -/
def parseLoopSpecFuel : Nat → Frame → List Char → Option Frame
  | 0, dict, response => if 6 ≤ response.length then none else some dict
  | fuel + 1, dict, response =>
    if 6 ≤ response.length then
      match getNextField response with
      | none => none
      | some (n, v, rest) => parseLoopSpecFuel fuel (insertFrame dict n v) rest
    else some dict

/-- Modelled from the spec: `decode_frame` with the spec's loop bound. -/
def parseResponseSpec (response : List Char) : Option Frame :=
  parseLoopSpecFuel (response.drop 42).length emptyFrame (response.drop 42)

/-- A frame whose post-header remainder has exactly 6 characters. -/
def c7tailStr : String := "01 02 "

/-- The full frame for the loop-bound counterexample. -/
def c7input : List Char := List.replicate 42 '0' ++ c7tailStr.toList

/-- Claim C7 counterexample: on a frame whose post-header remainder has
exactly 6 characters, the code's loop (guard: more than 6 remain) stops at
once and returns the empty mapping, while a loop running "until fewer than
6 characters remain" would decode one more field — here hitting the
unknown type code 2 and failing.  So the claim's loop bound does not
describe the code. -/
theorem parseResponse_loop_bound_counterexample :
    parseResponse c7input = some emptyFrame ∧
    parseResponseSpec c7input = none ∧
    some emptyFrame ≠ (none : Option Frame) := by
  refine ⟨rfl, rfl, fun h => Option.noConfusion h⟩

/-- Character `3 * i` of the hex dump is the high hex digit of byte `i`:
each byte contributes exactly 3 characters to `binToHex`. -/
theorem binToHex_get? (msg : List (Fin 256)) :
    ∀ i : Nat, (binToHex msg).get? (3 * i) =
      (msg.get? i).map (fun b => Nat.digitChar (b.val / 16)) := by
  induction msg with
  | nil => intro i; simp [binToHex]
  | cons b t ih =>
    intro i
    have hchunk : binToHex (b :: t) =
        [Nat.digitChar (b.val / 16), Nat.digitChar (b.val % 16), ' '] ++ binToHex t := by
      simp [binToHex]
    cases i with
    | zero => rw [hchunk]; rfl
    | succ j =>
      rw [hchunk]
      rw [List.get?_append_right (by simp)]
      have h3 : 3 * (j + 1) - [Nat.digitChar (b.val / 16), Nat.digitChar (b.val % 16), ' '].length
          = 3 * j := by simp; omega
      rw [h3, ih j]
      rfl

/-- Claim C6 (amended): a datagram is silently discarded exactly when it
fails the validity gate — byte length strictly between 100 and 1000 and
hex-dump character 18 equal to the marker character b; in particular
datagrams of length 50 or exactly 100 are discarded; and character 18 of
the hex dump is the high hex digit of the byte at header offset 6, so the
marker check constrains only that byte's high nibble. -/
theorem datagram_gate (msg : List (Fin 256)) :
    (processDatagram msg = .discarded ↔
      ¬(100 < msg.length ∧ msg.length < 1000 ∧ (binToHex msg).get? 18 = some 'b')) ∧
    (msg.length = 50 ∨ msg.length = 100 → processDatagram msg = .discarded) ∧
    (∀ h6 : 6 < msg.length,
      (binToHex msg).get? 18 = some (Nat.digitChar ((msg.get ⟨6, h6⟩).val / 16))) := by
  refine ⟨?_, ?_, ?_⟩
  · unfold processDatagram
    by_cases h1 : 100 < msg.length ∧ msg.length < 1000
    · rw [if_pos h1]
      by_cases h2 : (binToHex msg).get? 18 = some 'b'
      · rw [if_pos h2]
        constructor
        · intro hd
          cases hp : parseResponse (binToHex msg) with
          | none => rw [hp] at hd; exact DatagramResult.noConfusion hd
          | some f => rw [hp] at hd; exact DatagramResult.noConfusion hd
        · intro hn; exact absurd ⟨h1.1, h1.2, h2⟩ hn
      · rw [if_neg h2]
        exact ⟨fun _ hc => h2 hc.2.2, fun _ => rfl⟩
    · rw [if_neg h1]
      exact ⟨fun _ hc => h1 ⟨hc.1, hc.2.1⟩, fun _ => rfl⟩
  · intro hlen
    unfold processDatagram
    rw [if_neg (by rcases hlen with h | h <;> omega)]
  · intro h6
    have hx := binToHex_get? msg 6
    rw [show (3 : ℕ) * 6 = 18 from rfl] at hx
    rw [hx, List.get?_eq_get h6]
    rfl

/-- Witness for `datagram_gate`: a 50-byte datagram is discarded, and on a
7-byte message character 18 of the hex dump is byte 6's high hex digit. -/
theorem datagram_gate_witness :
    processDatagram (List.replicate 50 (0 : Fin 256)) = .discarded ∧
    (binToHex (List.replicate 7 (0 : Fin 256))).get? 18 =
      some (Nat.digitChar (((List.replicate 7 (0 : Fin 256)).get ⟨6, by simp⟩).val / 16)) := by
  exact ⟨(datagram_gate _).2.1 (Or.inl (by simp)),
    (datagram_gate _).2.2 (by simp)⟩

/-- An accepted datagram whose byte 6 is 0xb0. -/
def msgB0 : List (Fin 256) := List.replicate 6 0 ++ (176 : Fin 256) :: List.replicate 94 0

/-- An accepted datagram whose byte 6 is 0xb1. -/
def msgB1 : List (Fin 256) := List.replicate 6 0 ++ (177 : Fin 256) :: List.replicate 94 0

set_option maxRecDepth 100000 in
/-- Claim C6 counterexample: there is no single marker byte value that the
byte at header offset 6 must equal for a datagram to get past the gate —
two datagrams whose bytes 6 differ (0xb0 and 0xb1) both pass, because the
code compares only one hex character (the byte's high nibble). -/
theorem marker_is_not_a_byte_value :
    ¬ ∃ marker : Fin 256, ∀ msg : List (Fin 256),
        processDatagram msg ≠ .discarded → msg.get? 6 = some marker := by
  rintro ⟨m, hm⟩
  have h0 : processDatagram msgB0 = .crashed := rfl
  have h1 : processDatagram msgB1 = .crashed := rfl
  have e0 := hm msgB0 (by rw [h0]; exact fun h => DatagramResult.noConfusion h)
  have e1 := hm msgB1 (by rw [h1]; exact fun h => DatagramResult.noConfusion h)
  rw [show msgB0.get? 6 = some (176 : Fin 256) from rfl] at e0
  rw [show msgB1.get? 6 = some (177 : Fin 256) from rfl] at e1
  have hb0 : (176 : Fin 256) = m := Option.some.inj e0
  have hb1 : (177 : Fin 256) = m := Option.some.inj e1
  exact absurd (hb0.trans hb1.symm) (by decide)

/-- Fold with an Option-valued step distributes over append. -/
theorem optFoldlM_append {α β : Type} (f : α → β → Option α) (l1 l2 : List β) :
    ∀ b : α, List.foldlM f b (l1 ++ l2) =
      (List.foldlM f b l1).bind (fun c => List.foldlM f c l2) := by
  induction l1 with
  | nil => intro b; rfl
  | cons a t ih =>
    intro b
    show (f b a).bind (fun c => List.foldlM f c (t ++ l2)) =
      ((f b a).bind (fun c => List.foldlM f c t)).bind (fun c => List.foldlM f c l2)
    cases hfa : f b a with
    | none => rfl
    | some c => exact ih c

/-- One unfolding of `sizes`. -/
theorem sizes_cons (r : Frame) (t : List Frame) :
    sizes (r :: t) = (sensorEntry r).bind (fun e => (sizes t).map (fun l => e.2.2 :: l)) := by
  unfold sizes
  rw [List.mapM_cons]
  cases he : sensorEntry r with
  | none => simp [he]
  | some e =>
    cases hm : t.mapM (fun r => (sensorEntry r).map (fun e => e.2.2)) with
    | none => simp [he, hm]
    | some l => simp [he, hm]

/-- `sizes` splits along an append of the config list. -/
theorem sizes_split (l1 l2 : List Frame) :
    ∀ szs : List Nat, sizes (l1 ++ l2) = some szs →
    sizes l1 = some (szs.take l1.length) ∧ sizes l2 = some (szs.drop l1.length) := by
  induction l1 with
  | nil =>
    intro szs h
    exact ⟨rfl, by simpa using h⟩
  | cons r t ih =>
    intro szs h
    rw [List.cons_append, sizes_cons] at h
    cases he : sensorEntry r with
    | none => rw [he] at h; simp at h
    | some e =>
      rw [he] at h
      cases hm : sizes (t ++ l2) with
      | none => rw [hm] at h; simp at h
      | some l =>
        rw [hm] at h
        have hszs : e.2.2 :: l = szs := by simpa using h
        obtain ⟨h1, h2⟩ := ih l hm
        subst hszs
        constructor
        · rw [sizes_cons, he, h1]
          rfl
        · simpa using h2

/-- The accumulator of the `createSensorList` fold advances by exactly the
sum of the element sizes of the processed records. -/
theorem foldlM_buildStep_sum (config : List Frame) :
    ∀ (init out : SensorList × Nat),
    List.foldlM buildStep init config = some out →
    ∃ szs, sizes config = some szs ∧ out.2 = init.2 + szs.sum := by
  induction config with
  | nil =>
    intro init out h
    cases h
    exact ⟨[], rfl, by simp⟩
  | cons r t ih =>
    intro init out h
    rw [show List.foldlM buildStep init (r :: t) =
      (buildStep init r).bind (fun b => List.foldlM buildStep b t) from rfl] at h
    cases hb : buildStep init r with
    | none => rw [hb] at h; simp at h
    | some mid =>
      rw [hb] at h
      rw [show (some mid).bind (fun b => List.foldlM buildStep b t) =
        List.foldlM buildStep mid t from rfl] at h
      obtain ⟨szs, hs, hsum⟩ := ih mid out h
      unfold buildStep at hb
      cases he : sensorEntry r with
      | none => rw [he] at hb; simp at hb
      | some e =>
        rw [he] at hb
        have hmid : (insertSensor init.1 e.1 (e.2.1, init.2), init.2 + e.2.2) = mid :=
          Option.some.inj hb
        refine ⟨e.2.2 :: szs, ?_, ?_⟩
        · rw [sizes_cons, he, hs]
          rfl
        · rw [hsum, ← hmid]
          simp [List.sum_cons]
          omega

/-- Records whose sensor id differs from `id` leave the registry entry for
`id` unchanged. -/
theorem foldlM_buildStep_frozen (config : List Frame) :
    ∀ (init out : SensorList × Nat) (id : Nat),
    List.foldlM buildStep init config = some out →
    (∀ r ∈ config, ((sensorEntry r).all (fun e => e.1 != id)) = true) →
    out.1 id = init.1 id := by
  induction config with
  | nil =>
    intro init out id h _
    cases h
    rfl
  | cons r t ih =>
    intro init out id h hall
    rw [show List.foldlM buildStep init (r :: t) =
      (buildStep init r).bind (fun b => List.foldlM buildStep b t) from rfl] at h
    cases hb : buildStep init r with
    | none => rw [hb] at h; simp at h
    | some mid =>
      rw [hb] at h
      rw [show (some mid).bind (fun b => List.foldlM buildStep b t) =
        List.foldlM buildStep mid t from rfl] at h
      have hmid := ih mid out id h (fun r' hr' => hall r' (List.mem_cons_of_mem _ hr'))
      rw [hmid]
      have hhead := hall r (List.mem_cons_self _ _)
      unfold buildStep at hb
      cases he : sensorEntry r with
      | none => rw [he] at hb; simp at hb
      | some e =>
        rw [he] at hb
        have hb' : (insertSensor init.1 e.1 (e.2.1, init.2), init.2 + e.2.2) = mid :=
          Option.some.inj hb
        rw [← hb']
        show insertSensor init.1 e.1 (e.2.1, init.2) id = init.1 id
        rw [he] at hhead
        have hne : e.1 ≠ id := by simpa [Option.all] using hhead
        unfold insertSensor
        rw [if_neg (fun hc => hne hc.symm)]

/-- Core layout fact: if the overall registry fold succeeds, the record at
index `i` is stored under its id at byte offset equal to the sum of the
element sizes of the records before it, and stays there when no later
record reuses that id. -/
theorem buildStep_lookup_at (config : List Frame) (i : Nat) (hi : i < config.length)
    (out : SensorList × Nat) (szs : List Nat)
    (hfold : List.foldlM buildStep (emptySL, 0) config = some out)
    (hsz : sizes config = some szs)
    (id : Nat) (b : Desc0) (sz : Nat)
    (hei : sensorEntry (config.get ⟨i, hi⟩) = some (id, b, sz))
    (hall : ∀ r ∈ config.drop (i + 1), ((sensorEntry r).all (fun e => e.1 != id)) = true) :
    out.1 id = some (b, (szs.take i).sum) := by
  have hout := hfold
  have hdec : config = config.take i ++ config.get ⟨i, hi⟩ :: config.drop (i + 1) := by
    conv_lhs => rw [← List.take_append_drop i config]
    rw [List.drop_eq_get_cons hi]
  rw [hdec, optFoldlM_append] at hout
  cases hm1 : List.foldlM buildStep (emptySL, 0) (config.take i) with
  | none => rw [hm1] at hout; simp at hout
  | some m1 =>
    rw [hm1] at hout
    rw [show (some m1).bind
        (fun c => List.foldlM buildStep c (config.get ⟨i, hi⟩ :: config.drop (i + 1))) =
      (buildStep m1 (config.get ⟨i, hi⟩)).bind
        (fun c => List.foldlM buildStep c (config.drop (i + 1))) from rfl] at hout
    rw [show buildStep m1 (config.get ⟨i, hi⟩) = (sensorEntry (config.get ⟨i, hi⟩)).map
      (fun e => (insertSensor m1.1 e.1 (e.2.1, m1.2), m1.2 + e.2.2)) from rfl, hei] at hout
    rw [show ((some (id, b, sz)).map
        (fun e => (insertSensor m1.1 e.1 (e.2.1, m1.2), m1.2 + e.2.2))).bind
        (fun c => List.foldlM buildStep c (config.drop (i + 1))) =
      List.foldlM buildStep (insertSensor m1.1 id (b, m1.2), m1.2 + sz)
        (config.drop (i + 1)) from rfl] at hout
    have hfr := foldlM_buildStep_frozen (config.drop (i + 1)) _ out id hout hall
    obtain ⟨szs1, hs1, hsum1⟩ := foldlM_buildStep_sum (config.take i) (emptySL, 0) m1 hm1
    have hsplit := (sizes_split (config.take i)
      (config.get ⟨i, hi⟩ :: config.drop (i + 1)) szs (by rw [← hdec]; exact hsz)).1
    have hlen_take : (config.take i).length = i := by
      simp [List.length_take]
      omega
    rw [hlen_take] at hsplit
    have hszs1 : szs1 = szs.take i := by
      rw [hs1] at hsplit
      exact Option.some.inj hsplit
    rw [hfr]
    show insertSensor m1.1 id (b, m1.2) id = some (b, (szs.take i).sum)
    unfold insertSensor
    rw [if_pos rfl]
    have hm12 : m1.2 = (szs.take i).sum := by
      rw [hsum1, hszs1]
      simp
    rw [hm12]

/-- Claim C8 (amended): in enumeration order, each record's descriptor is
stored with byte offset equal to the running sum of the element sizes of
all earlier records (whenever its sensor id does not recur later), and the
resulting byte-offset sequence — the partial sums — is non-decreasing (it
is not strictly increasing in general: a record of element size 0, the
Null kind, repeats the previous offset). -/
theorem sensor_offsets_running_sum (config : List Frame) (sl : SensorList) (szs : List Nat)
    (hcs : createSensorList config = some sl) (hsz : sizes config = some szs) :
    (∀ (i : Nat) (hi : i < config.length) (id : Nat) (b : Desc0) (sz : Nat),
      sensorEntry (config.get ⟨i, hi⟩) = some (id, b, sz) →
      (∀ r ∈ config.drop (i + 1), ((sensorEntry r).all (fun e => e.1 != id)) = true) →
      sl id = some (b, (szs.take i).sum)) ∧
    (∀ i j : Nat, i ≤ j → (szs.take i).sum ≤ (szs.take j).sum) := by
  constructor
  · intro i hi id b sz hei hall
    unfold createSensorList at hcs
    cases hout : List.foldlM buildStep (emptySL, 0) config with
    | none => rw [hout] at hcs; simp at hcs
    | some out =>
      rw [hout] at hcs
      have hsl : out.1 = sl := Option.some.inj hcs
      rw [← hsl]
      exact buildStep_lookup_at config i hi out szs hout hsz id b sz hei hall
  · intro i j hij
    have hsplit : szs.take j = szs.take i ++ (szs.drop i).take (j - i) := by
      conv_lhs => rw [show j = i + (j - i) from by omega]
      rw [List.take_add]
    rw [hsplit, List.sum_append]
    exact Nat.le_add_right _ _

/-- A config record with only an id (field 0) and a type code (field 1). -/
def mkRec (id tcode : Nat) : Frame := fun n =>
  if n = 0 then some (.pair 0 id) else if n = 1 then some (.pair 0 tcode) else none

/-- Two Null records (element size 0): both sensors get byte offset 0. -/
def c8bad : List Frame := [mkRec 1 0, mkRec 2 0]

/-- Claim C8 counterexample: with a Null sensor first (element size 0),
the next sensor receives the same byte offset 0, so the byte-offset
sequence 0, 0 is not strictly increasing. -/
theorem offsets_not_strictly_increasing :
    (createSensorList c8bad).bind (fun sl => (sl 1).map (fun d => d.2)) = some 0 ∧
    (createSensorList c8bad).bind (fun sl => (sl 2).map (fun d => d.2)) = some 0 ∧
    ¬ (0 : Nat) < 0 := ⟨rfl, rfl, by omega⟩

/-- A volt record: id, type code 1, and a name in field 3. -/
def mkVoltRec (id : Nat) : Frame := fun n =>
  if n = 0 then some (.pair 0 id) else if n = 1 then some (.pair 0 1)
  else if n = 3 then some (.text ['A']) else none

/-- The descriptor a volt record produces. -/
def voltDesc : Desc0 := { type := .volt, name := some (.text ['A']) }

/-- Witness for `sensor_offsets_running_sum`: in the config volt, null, the
volt sensor (id 5, no later duplicate) is stored at offset 0 = the empty
running sum. -/
theorem sensor_offsets_running_sum_witness :
    ∃ sl, createSensorList [mkVoltRec 5, mkRec 7 0] = some sl ∧ sl 5 = some (voltDesc, 0) := by
  obtain ⟨out, hout⟩ :
      ∃ out, List.foldlM buildStep (emptySL, 0) [mkVoltRec 5, mkRec 7 0] = some out := ⟨_, rfl⟩
  have hcs : createSensorList [mkVoltRec 5, mkRec 7 0] = some out.1 := by
    unfold createSensorList
    rw [hout]
    rfl
  refine ⟨out.1, hcs, ?_⟩
  have h := (sensor_offsets_running_sum [mkVoltRec 5, mkRec 7 0] out.1 [1, 0] hcs (by decide)).1
  have h5 := h 0 (by decide) 5 voltDesc 1 (by decide) ?_
  · simpa using h5
  · intro r hr
    have hr2 : r = mkRec 7 0 := by simpa using hr
    subst hr2
    decide

/-- Claim C10: when records `i` and `j` (`i < j`) report the same sensor
id, only record `j`'s descriptor survives in the registry — stored at the
byte offset accumulated over all earlier records, record `i` included —
while the offset accumulator still advances by both records' element
sizes: after records `0..i` it equals the running sum plus record `i`'s
size, and the final accumulator is the sum of every record's size. -/
theorem duplicate_id_overwrite (config : List Frame) (i j : Nat) (hij : i < j)
    (hj : j < config.length) (out : SensorList × Nat) (szs : List Nat)
    (hfold : List.foldlM buildStep (emptySL, 0) config = some out)
    (hsz : sizes config = some szs)
    (idv : Nat) (bi bj : Desc0) (szi szj : Nat)
    (hei : sensorEntry (config.get ⟨i, Nat.lt_trans hij hj⟩) = some (idv, bi, szi))
    (hej : sensorEntry (config.get ⟨j, hj⟩) = some (idv, bj, szj))
    (hlast : ∀ r ∈ config.drop (j + 1), ((sensorEntry r).all (fun e => e.1 != idv)) = true) :
    out.1 idv = some (bj, (szs.take j).sum) ∧
    out.2 = szs.sum ∧
    (List.foldlM buildStep (emptySL, 0) (config.take (i + 1))).map (fun q => q.2) =
      some ((szs.take i).sum + szi) := by
  refine ⟨buildStep_lookup_at config j hj out szs hfold hsz idv bj szj hej hlast, ?_, ?_⟩
  · obtain ⟨szs2, hs2, hsum2⟩ := foldlM_buildStep_sum config (emptySL, 0) out hfold
    rw [hsz] at hs2
    have hss := Option.some.inj hs2
    rw [hsum2, ← hss]
    simp
  · have hii : i < config.length := Nat.lt_trans hij hj
    have hf := hfold
    rw [show config = config.take (i + 1) ++ config.drop (i + 1) from
      (List.take_append_drop _ _).symm, optFoldlM_append] at hf
    cases hp : List.foldlM buildStep (emptySL, 0) (config.take (i + 1)) with
    | none => rw [hp] at hf; simp at hf
    | some m =>
      have hgi : config[i]? = some (config.get ⟨i, hii⟩) := by
        rw [List.getElem?_eq_getElem hii]
        rfl
      have hto : config.take (i + 1) = config.take i ++ [config.get ⟨i, hii⟩] := by
        rw [List.take_succ, hgi]
        rfl
      have hp2 := hp
      rw [hto, optFoldlM_append] at hp2
      cases hm1 : List.foldlM buildStep (emptySL, 0) (config.take i) with
      | none => rw [hm1] at hp2; simp at hp2
      | some m1 =>
        rw [hm1] at hp2
        rw [show (some m1).bind (fun c => List.foldlM buildStep c [config.get ⟨i, hii⟩]) =
          (buildStep m1 (config.get ⟨i, hii⟩)).bind (fun c => some c) from rfl] at hp2
        rw [show buildStep m1 (config.get ⟨i, hii⟩) = (sensorEntry (config.get ⟨i, hii⟩)).map
          (fun e => (insertSensor m1.1 e.1 (e.2.1, m1.2), m1.2 + e.2.2)) from rfl, hei] at hp2
        have hm : (insertSensor m1.1 idv (bi, m1.2), m1.2 + szi) = m := Option.some.inj hp2
        obtain ⟨szs1, hs1, hsum1⟩ := foldlM_buildStep_sum (config.take i) (emptySL, 0) m1 hm1
        have hsplit := (sizes_split (config.take i) (config.drop i) szs
          (by rw [List.take_append_drop]; exact hsz)).1
        have hlen_take : (config.take i).length = i := by
          simp [List.length_take]
          omega
        rw [hlen_take] at hsplit
        have hszs1 : szs1 = szs.take i := by
          rw [hs1] at hsplit
          exact Option.some.inj hsplit
        show some m.2 = some ((szs.take i).sum + szi)
        rw [← hm]
        show some (m1.2 + szi) = some ((szs.take i).sum + szi)
        rw [hsum1, hszs1]
        simp

/-- Witness for `duplicate_id_overwrite`: in the config volt(id 5),
null(id 5), volt(id 9), the registry keeps the null descriptor for id 5 at
offset 1 (the volt record's size still counted) and the final accumulator
is 2. -/
theorem duplicate_id_overwrite_witness :
    ∃ out, List.foldlM buildStep (emptySL, 0) [mkVoltRec 5, mkRec 5 0, mkVoltRec 9] = some out ∧
      out.1 5 = some ({ type := .null }, 1) ∧ out.2 = 2 := by
  obtain ⟨out, hout⟩ :
      ∃ out, List.foldlM buildStep (emptySL, 0) [mkVoltRec 5, mkRec 5 0, mkVoltRec 9] = some out :=
    ⟨_, rfl⟩
  refine ⟨out, hout, ?_⟩
  have h := duplicate_id_overwrite [mkVoltRec 5, mkRec 5 0, mkVoltRec 9] 0 1 (by decide)
    (by decide) out [1, 0, 1] hout (by decide) 5 voltDesc { type := .null } 1 0
    (by decide) (by decide) ?_
  · exact ⟨by simpa using h.1, by simpa using h.2.1⟩
  · intro r hr
    have hr9 : r = mkVoltRec 9 := by simpa using hr
    subst hr9
    decide

/-- Witness for `readTank_safe`: a 50-litre tank at element pair
(2000, 500) reads 100 percent. -/
theorem readTank_safe_witness :
    ∃ tr, readTank 2000 500 (some 50) = some tr ∧ tr.percentage = 100 := by
  obtain ⟨tr, h1, _, _, _, h5⟩ := readTank_safe 2000 500 (some 50)
  refine ⟨tr, h1, ?_⟩
  rw [h5 (by norm_num)]
  norm_num

/-- The remaining buffer a successful text scan returns is a suffix of the
scanned buffer. -/
theorem scanTextFuel_rest_le (fuel : Nat) :
    ∀ (s w r : List Char), scanTextFuel fuel s = some (w, r) → r.length ≤ s.length := by
  induction fuel with
  | zero =>
    intro s w r h
    by_cases h00 : s.take 2 = ['0', '0']
    · unfold scanTextFuel at h
      rw [if_pos h00] at h
      cases h
      exact le_refl _
    · unfold scanTextFuel at h
      rw [if_neg h00] at h
      simp at h
  | succ f ih =>
    intro s w r h
    by_cases h00 : s.take 2 = ['0', '0']
    · unfold scanTextFuel at h
      rw [if_pos h00] at h
      cases h
      exact le_refl _
    · unfold scanTextFuel at h
      rw [if_neg h00] at h
      have h2 : Option.map (fun p => (s.take 2 ++ p.1, p.2)) (scanTextFuel f (s.drop 3)) =
        some (w, r) := h
      cases hs : scanTextFuel f (s.drop 3) with
      | none =>
        rw [hs] at h2
        simp at h2
      | some p =>
        rw [hs] at h2
        have hih := ih (s.drop 3) p.1 p.2 (by rw [hs])
        have hr : r = p.2 := by
          have := Option.some.inj h2
          exact (congrArg Prod.snd this).symm
        rw [hr]
        simp only [List.length_drop] at hih
        omega

/-- A successful `getNextField` strictly shortens the buffer, so the fuel
`response.length` given to the extraction loop never runs out on a run the
Python loop would complete. -/
theorem getNextField_shrinks (resp : List Char) (n : Nat) (v : FieldData) (rest : List Char)
    (h : getNextField resp = some (n, v, rest)) : rest.length < resp.length := by
  have hne : resp ≠ [] := by
    intro hnil
    rw [hnil] at h
    exact Option.noConfusion h
  have hpos : 0 < resp.length := List.length_pos.mpr hne
  unfold getNextField at h
  dsimp only at h
  split at h
  · split at h
    · split at h
      · have hrest := congrArg (fun q => q.2.2) (Option.some.inj h)
        simp only at hrest
        rw [← hrest]
        simp only [List.length_drop]
        omega
      · exact Option.noConfusion h
    · split at h
      · split at h
        · have hrest := congrArg (fun q => q.2.2) (Option.some.inj h)
          simp only at hrest
          rw [← hrest]
          simp only [List.length_drop]
          omega
        · split at h
          · have hrest := congrArg (fun q => q.2.2) (Option.some.inj h)
            simp only at hrest
            rw [← hrest]
            simp only [List.length_drop]
            omega
          · exact Option.noConfusion h
      · split at h
        · split at h
          · exact Option.noConfusion h
          · rename_i w1 r1 hs
            split at h
            · exact Option.noConfusion h
            · rename_i word hw
              have hr1 : r1.length ≤ (resp.drop 21).length :=
                scanTextFuel_rest_le (resp.drop 21).length (resp.drop 21) w1 r1 hs
              have hrest := congrArg (fun q => q.2.2) (Option.some.inj h)
              simp only at hrest
              rw [← hrest]
              simp only [List.length_drop] at hr1 ⊢
              omega
        · exact Option.noConfusion h
  · exact Option.noConfusion h

/-- The extraction loop's result does not depend on the fuel once the fuel
is at least the buffer length: the fuel used by `parseResponse` is ample. -/
theorem parseLoopFuel_fuel_irrelevant :
    ∀ (fuel1 fuel2 : Nat) (d : Frame) (s : List Char),
      s.length ≤ fuel1 → s.length ≤ fuel2 →
      parseLoopFuel fuel1 d s = parseLoopFuel fuel2 d s := by
  intro fuel1
  induction fuel1 with
  | zero =>
    intro fuel2 d s h1 h2
    have hng : ¬ 6 < s.length := by omega
    cases fuel2 with
    | zero => rfl
    | succ f2 =>
      unfold parseLoopFuel
      rw [if_neg hng, if_neg hng]
  | succ f1 ih =>
    intro fuel2 d s h1 h2
    cases fuel2 with
    | zero =>
      have hng : ¬ 6 < s.length := by omega
      unfold parseLoopFuel
      rw [if_neg hng, if_neg hng]
    | succ f2 =>
      by_cases hg : 6 < s.length
      · unfold parseLoopFuel
        rw [if_pos hg, if_pos hg]
        cases hgn : getNextField s with
        | none => rfl
        | some t =>
          obtain ⟨nn, vv, rr⟩ := t
          have hlt := getNextField_shrinks s nn vv rr hgn
          exact ih f2 (insertFrame d nn vv) rr (by omega) (by omega)
      · unfold parseLoopFuel
        rw [if_neg hg, if_neg hg]
